import Mathlib

/-!
Verification development for the fixed-point NCO/PLL component
(`src/nco/src/nco_crcq16.c`) and the OFDM synchronization-sequence
generator (`src/multicarrier/src/ofdmframe.common.c`) of liquid-dsp.

The q16 fixed-point scalar type of liquidfpm is an external collaborator
of this code (spec §1, §6).  Modelled from the spec: q16 is a 16-bit
signed fixed-point number with 11 fractional bits, carried here as an
unbounded `Int` holding the raw (scaled) integer; the constants π, 2π
and 1 are represented by their round-to-nearest raw values 6434, 12868
and 2048.  Floating-point subexpressions of the C source are idealized
as exact rational arithmetic (`ℚ`); a C cast of a float to an integer
type truncates toward zero, modelled by `qtrunc`.
-/

/-- Fractional scale of the q16 type: 2^11. -/
def q16_scale : Int := 2048

/-- Raw q16 value of π (round-to-nearest of π·2^11). -/
def q16_pi : Int := 6434

/-- Raw q16 value of 2π (round-to-nearest of 2π·2^11); equals 2·`q16_pi`. -/
def q16_2pi : Int := 12868

/-- Raw q16 value of 1. -/
def q16_one : Int := 2048

/-- Truncation toward zero of a rational, the semantics of a C cast from
a floating value to an integer type. -/
def qtrunc (x : ℚ) : Int := if x < 0 then -⌊-x⌋ else ⌊x⌋

/-- q16 multiply: the 32-bit product arithmetically shifted right by the
fractional bits (floor division by 2^11).  Modelled from the spec: the
fixed-point multiply of the external numeric primitive. -/
def q16_mul (x y : Int) : Int := (x * y) / 2048

/-- Complex q16 sample (`cq16_t`): raw real and imaginary parts. -/
structure Cq16 where
  re : Int
  im : Int
deriving DecidableEq, Repr

/-- Complex fixed-point multiply (`cq16_mul`).  Modelled from the spec:
the complex fixed-point type supports complex multiply (spec §6). -/
def cq16_mul (x y : Cq16) : Cq16 :=
  { re := q16_mul x.re y.re - q16_mul x.im y.im
    im := q16_mul x.re y.im + q16_mul x.im y.re }

/-- Second-order IIR section (`iirfiltsos_rrrq16`), direct form I.
Modelled from the spec: an opaque stateful biquad filter with
`set_coefficients`, `execute`, `clear` operations (spec §1, §6); its
direct-form-I recurrence applies the two feed-forward and two feed-back
coefficients, plus a unity leading feed-back term, to the raw delayed
inputs and outputs (spec glossary). -/
structure Sos where
  b0 : Int
  b1 : Int
  b2 : Int
  a0 : Int
  a1 : Int
  a2 : Int
  x1 : Int
  x2 : Int
  y1 : Int
  y2 : Int
deriving DecidableEq, Repr

/-- Model of `iirfiltsos_rrrq16_set_coefficients`: install feed-forward and
feed-back coefficient triples, keeping the delay-line state. -/
def sos_set_coefficients (f : Sos) (b0 b1 b2 a0 a1 a2 : Int) : Sos :=
  { f with b0 := b0, b1 := b1, b2 := b2, a0 := a0, a1 := a1, a2 := a2 }

/-- Model of `iirfiltsos_rrrq16_execute_df1`: one direct-form-I step, returning
the updated filter and the output sample. -/
def sos_execute_df1 (f : Sos) (x : Int) : Sos × Int :=
  let v : Int := q16_mul f.b0 x + q16_mul f.b1 f.x1 + q16_mul f.b2 f.x2
                 - q16_mul f.a1 f.y1 - q16_mul f.a2 f.y2
  ({ f with x1 := x, x2 := f.x1, y1 := v, y2 := f.y1 }, v)

/-- Model of `iirfiltsos_rrrq16_clear`: zero the delay-line state, keeping the
coefficients. -/
def sos_clear (f : Sos) : Sos :=
  { f with x1 := 0, x2 := 0, y1 := 0, y2 := 0 }

/-- Oscillator state (`struct nco_crcq16_s`), NCO type: phase and
frequency accumulators, sine-table index and cached sine/cosine, PLL
bandwidth and loop filter.  The 256-entry sine table is a constant
(`sintab`) and is kept outside the state. -/
structure Nco where
  theta : Int
  dTheta : Int
  index : Nat
  sine : Int
  cosine : Int
  bandwidth : Int
  filter : Sos
deriving DecidableEq, Repr

/-- State after `nco_crcq16_create`/`nco_crcq16_reset` (theta, frequency,
index, sine zeroed; cosine set to raw 1 as in the source; loop filter
created with identity coefficients a0 = 1).  The source then immediately
applies the default PLL bandwidth; that call is `nco_crcq16_pll_set_bandwidth`
below and is not folded in here. -/
def ncoInit : Nco :=
  { theta := 0, dTheta := 0, index := 0, sine := 0, cosine := 1
    bandwidth := 0
    filter := { b0 := 0, b1 := 0, b2 := 0, a0 := 2048, a1 := 0, a2 := 0
                x1 := 0, x2 := 0, y1 := 0, y2 := 0 } }

/-- Function `nco_crcq16_constrain_phase`, as a pure function on the raw phase:
single-step correction, subtracting 2π if the phase exceeds π and adding
2π if it is below −π. -/
def constrain (theta : Int) : Int :=
  if theta > q16_pi then theta - q16_2pi
  else if theta < -q16_pi then theta + q16_2pi
  else theta

/-- Function `nco_crcq16_set_phase`: overwrite the phase, then constrain it. -/
def nco_crcq16_set_phase (q : Nco) (phi : Int) : Nco :=
  { q with theta := constrain phi }

/-- Function `nco_crcq16_adjust_phase`: add to the phase, then constrain it. -/
def nco_crcq16_adjust_phase (q : Nco) (dphi : Int) : Nco :=
  { q with theta := constrain (q.theta + dphi) }

/-- Function `nco_crcq16_step`: advance the phase by the frequency, then
constrain it. -/
def nco_crcq16_step (q : Nco) : Nco :=
  { q with theta := constrain (q.theta + q.dTheta) }

/-- Function `nco_crcq16_set_frequency`: overwrite the frequency, no constraint. -/
def nco_crcq16_set_frequency (q : Nco) (f : Int) : Nco :=
  { q with dTheta := f }

/-- Function `nco_crcq16_adjust_frequency`: add to the frequency, no constraint. -/
def nco_crcq16_adjust_frequency (q : Nco) (df : Int) : Nco :=
  { q with dTheta := q.dTheta + df }

/-- The 256-entry q16 sine table built at `nco_crcq16_create`:
entry i holds the q16 value of sin(2π·i/256).  Modelled from the spec:
the float-to-fixed conversion of the external numeric primitive is
round-to-nearest (spec §6: conversion with defined rounding). -/
def sintab : List Int :=
  [   0, 50, 100, 151, 201, 251, 301, 350, 400, 449, 498, 546, 595, 642, 690, 737,
   784, 830, 876, 921, 965, 1009, 1053, 1096, 1138, 1179, 1220, 1260, 1299, 1338, 1375, 1412,
   1448, 1483, 1517, 1551, 1583, 1615, 1645, 1674, 1703, 1730, 1757, 1782, 1806, 1829, 1851, 1872,
   1892, 1911, 1928, 1945, 1960, 1974, 1987, 1998, 2009, 2018, 2026, 2033, 2038, 2042, 2046, 2047,
   2048, 2047, 2046, 2042, 2038, 2033, 2026, 2018, 2009, 1998, 1987, 1974, 1960, 1945, 1928, 1911,
   1892, 1872, 1851, 1829, 1806, 1782, 1757, 1730, 1703, 1674, 1645, 1615, 1583, 1551, 1517, 1483,
   1448, 1412, 1375, 1338, 1299, 1260, 1220, 1179, 1138, 1096, 1053, 1009, 965, 921, 876, 830,
   784, 737, 690, 642, 595, 546, 498, 449, 400, 350, 301, 251, 201, 151, 100, 50,
   0, -50, -100, -151, -201, -251, -301, -350, -400, -449, -498, -546, -595, -642, -690, -737,
   -784, -830, -876, -921, -965, -1009, -1053, -1096, -1138, -1179, -1220, -1260, -1299, -1338, -1375, -1412,
   -1448, -1483, -1517, -1551, -1583, -1615, -1645, -1674, -1703, -1730, -1757, -1782, -1806, -1829, -1851, -1872,
   -1892, -1911, -1928, -1945, -1960, -1974, -1987, -1998, -2009, -2018, -2026, -2033, -2038, -2042, -2046, -2047,
   -2048, -2047, -2046, -2042, -2038, -2033, -2026, -2018, -2009, -1998, -1987, -1974, -1960, -1945, -1928, -1911,
   -1892, -1872, -1851, -1829, -1806, -1782, -1757, -1730, -1703, -1674, -1645, -1615, -1583, -1551, -1517, -1483,
   -1448, -1412, -1375, -1338, -1299, -1260, -1220, -1179, -1138, -1096, -1053, -1009, -965, -921, -876, -830,
   -784, -737, -690, -642, -595, -546, -498, -449, -400, -350, -301, -251, -201, -151, -100, -50]

/-- Table lookup at an index already reduced mod 256. -/
def sget (i : Nat) : Int := sintab.getD i 0

/-- Single-pass boolean check of the sine table: every entry lies in
[−2048, 2048] and every (sine, quarter-shifted cosine) pair satisfies
the quantized circle identity up to deviation 2390. -/
def tabOk : Bool :=
  (List.range 256).all (fun i =>
    decide (-2048 ≤ sget i) && decide (sget i ≤ 2048) &&
    decide (-2390 ≤ (sget ((i + 64) % 256))^2 + (sget i)^2 - 2048^2) &&
    decide ((sget ((i + 64) % 256))^2 + (sget i)^2 - 2048^2 ≤ 2390))

/-- The float constant `40.743665f` ≈ 256/(2π) of the source, idealized
as an exact rational. -/
def idx_scale : ℚ := 40743665 / 1000000

/-- Index computation of `nco_crcq16_compute_sincos_nco` (line 418):
`((unsigned int)((_q->theta)*40.743665f + 512.0f + 0.5f)) & 0xff`.
The raw phase integer is multiplied by the float constant, biased by
512 + 0.5 and cast; the cast to `unsigned int` truncates toward zero
and wraps mod 2^32 (for a negative operand the C conversion is
undefined; two's-complement wrapping is the prevailing behavior and is
used here); `& 0xff` keeps the low eight bits, i.e. reduces mod 256. -/
def nco_index (theta : Int) : Nat :=
  (((qtrunc ((theta : ℚ) * idx_scale + 512 + 1/2)) % 4294967296).toNat) % 256

/-- Function `nco_crcq16_compute_sincos_nco`: store the table index derived from
the phase, the sine at that index, and the cosine at index+64 mod 256. -/
def nco_crcq16_compute_sincos_nco (q : Nco) : Nco :=
  let i := nco_index q.theta
  { q with index := i, sine := sget i, cosine := sget ((i + 64) % 256) }

/-- Function `nco_crcq16_mix_up`: recompute sine/cosine from the current phase,
then multiply the input by the rotation cos θ + j·sin θ. -/
def nco_crcq16_mix_up (q : Nco) (x : Cq16) : Nco × Cq16 :=
  let q' := nco_crcq16_compute_sincos_nco q
  (q', cq16_mul x { re := q'.cosine, im := q'.sine })

/-- Function `nco_crcq16_mix_down`: recompute sine/cosine from the current phase,
then multiply the input by the conjugate rotation cos θ − j·sin θ. -/
def nco_crcq16_mix_down (q : Nco) (x : Cq16) : Nco × Cq16 :=
  let q' := nco_crcq16_compute_sincos_nco q
  (q', cq16_mul x { re := q'.cosine, im := - q'.sine })

/-- Function `nco_crcq16_mix_block_up`: apply `nco_crcq16_mix_up` to each element
in order, threading the oscillator state. -/
def nco_crcq16_mix_block_up : Nco → List Cq16 → Nco × List Cq16
  | q, [] => (q, [])
  | q, x :: xs =>
    let p := nco_crcq16_mix_up q x
    let r := nco_crcq16_mix_block_up p.1 xs
    (r.1, p.2 :: r.2)

/-- Function `nco_crcq16_mix_block_down`: apply `nco_crcq16_mix_down` to each
element in order, threading the oscillator state. -/
def nco_crcq16_mix_block_down : Nco → List Cq16 → Nco × List Cq16
  | q, [] => (q, [])
  | q, x :: xs =>
    let p := nco_crcq16_mix_down q x
    let r := nco_crcq16_mix_block_down p.1 xs
    (r.1, p.2 :: r.2)

/-- Function `nco_crcq16_pll_reset`: clear the loop-filter delay line. -/
def nco_crcq16_pll_reset (q : Nco) : Nco :=
  { q with filter := sos_clear q.filter }

/-- Function `nco_crcq16_pll_step`: run the phase error through the loop filter
(direct form I) and add the filtered output to the frequency via
`nco_crcq16_adjust_frequency`; the commented-out frequency constraint of
the source is not applied. -/
def nco_crcq16_pll_step (q : Nco) (dphi : Int) : Nco :=
  let r := sos_execute_df1 q.filter dphi
  nco_crcq16_adjust_frequency { q with filter := r.1 } r.2

/-- The float32 value of `1/sqrtf(2.0f)`, as an exact rational. -/
def zetaQ : ℚ := 11863283 / 16777216

/-- Rational loop-filter coefficients, one per field. -/
@[ext]
structure CoeffsQ where
  b0 : ℚ
  b1 : ℚ
  b2 : ℚ
  a0 : ℚ
  a1 : ℚ
  a2 : ℚ
deriving DecidableEq, Repr

/-- Coefficient computation of `nco_crcq16_pll_set_bandwidth` (source
lines 245–259) idealized over ℚ: gain K = 1000 (`NCO_PLL_GAIN_DEFAULT`),
damping zeta = `zetaQ`, natural frequency wn = the bandwidth argument
(the source uses the raw q16 integer directly as a float), and
t1 = K/(wn·wn), t2 = 2·zeta/wn − 1/K.  In ℚ a division by zero yields 0
whereas the C float computation at wn = 0 produces infinities; the
coefficient claims are therefore stated for positive bandwidth. -/
def pll_coeffs_rat (b : Int) : CoeffsQ :=
  let K : ℚ := 1000
  let zeta : ℚ := zetaQ
  let wn : ℚ := (b : ℚ)
  let t1 : ℚ := K / (wn * wn)
  let t2 : ℚ := 2 * zeta / wn - 1 / K
  { b0 := 2 * K * (1 + t2 / 2)
    b1 := 2 * K * 2
    b2 := 2 * K * (1 - t2 / 2)
    a0 := 1 + t1 / 2
    a1 := -1 + t1 / 2
    a2 := 0 }

/-- The q16 coefficient values actually installed: each float value is
assigned to a `q16_t` field, a C float-to-integer cast truncating toward
zero. -/
def pll_coeffs_install (f : Sos) (b : Int) : Sos :=
  let co := pll_coeffs_rat b
  sos_set_coefficients f (qtrunc co.b0) (qtrunc co.b1) (qtrunc co.b2)
    (qtrunc co.a0) (qtrunc co.a1) (qtrunc co.a2)

/-- Function `nco_crcq16_pll_set_bandwidth`: reject a negative bandwidth with a
fatal diagnostic (`exit(1)` in the source, an `Except.error` here);
otherwise store the bandwidth unchanged and install the recomputed
loop-filter coefficients. -/
def nco_crcq16_pll_set_bandwidth (q : Nco) (b : Int) : Except String Nco :=
  if b < 0 then
    .error "nco_pll_set_bandwidth(), bandwidth must be positive"
  else
    .ok { q with bandwidth := b, filter := pll_coeffs_install q.filter b }

/-- The index mapping exactly as claim C2 words it: round(phase·256/(2π))
+ 128, masked into [0,255], where "phase" is the angle represented by the
q16 value (raw/2^11) and 256/(2π) is the source's constant 40.743665. -/
def spec_index_c2 (theta : Int) : Nat :=
  ((⌊(theta : ℚ) / 2048 * idx_scale + 1/2⌋ + 128) % 256).toNat

/-- PLL coefficient formulas exactly as the spec words them (§4.3):
t1 = K/wn², t2 = 2ζ/wn − 1/K; b0 = 2K(1+t2/2), b1 = 4K,
b2 = 2K(1−t2/2); a0 = 1+t1/2, a1 = −1+t1/2, a2 = 0; wn = b, fixed gain
K = 1000, damping ζ = 1/√2 (represented by the same rational float
value `zetaQ`; ζ itself is irrational). -/
def spec_pll_coeffs (b : Int) : CoeffsQ :=
  let K : ℚ := 1000
  let wn : ℚ := (b : ℚ)
  let t1 : ℚ := K / wn ^ 2
  let t2 : ℚ := 2 * zetaQ / wn - 1 / K
  { b0 := 2 * K * (1 + t2 / 2)
    b1 := 4 * K
    b2 := 2 * K * (1 - t2 / 2)
    a0 := 1 + t1 / 2
    a1 := -1 + t1 / 2
    a2 := 0 }

/-- Subcarrier type tag of the OFDM allocation (`OFDMFRAME_SCTYPE_*`). -/
inductive SCType where
  | null
  | pilot
  | data
deriving DecidableEq, Repr

/-- Loop body of `ofdmframe_init_S0`: walk the allocation with running
subcarrier index i, drawing one symbol of the m-sequence per iteration.
The pseudo-random bit source is an external collaborator (spec §1, §7)
and is abstracted as the bit stream `bits`; a NULL subcarrier yields 0,
an even-indexed non-null subcarrier yields ±1 and is counted, an
odd-indexed non-null subcarrier yields 0.  Returns the frequency-domain
symbol values and the number of enabled subcarriers. -/
def ofdm_S0_loop : List SCType → (Nat → Bool) → Nat → List Int × Nat
  | [], _, _ => ([], 0)
  | t :: p, bits, i =>
    let rest := ofdm_S0_loop p bits (i + 1)
    let v : Int := match t with
      | .null => 0
      | _ => if i % 2 = 0 then (if bits i then 1 else -1) else 0
    let dcnt : Nat := match t with
      | .null => 0
      | _ => if i % 2 = 0 then 1 else 0
    (v :: rest.1, rest.2 + dcnt)

/-- Function `ofdmframe_init_S0`, up to the external inverse FFT and the
1/√(M_S0) normalization of the time-domain sequence: fails fatally
(diagnostic and `exit(1)`, an `Except.error` here) when no subcarrier
was enabled, otherwise returns the frequency-domain symbol together
with the count of enabled subcarriers. -/
def ofdmframe_init_S0 (p : List SCType) (bits : Nat → Bool) :
    Except String (List Int × Nat) :=
  let r := ofdm_S0_loop p bits 0
  if r.2 = 0 then
    .error "ofdmframe_init_S0(), no subcarriers enabled; check allocation"
  else
    .ok r

/-- Number of even-indexed non-null subcarriers of an allocation — the
activation rule as claim C9 words it. -/
def activeCountS0 (p : List SCType) : Nat :=
  (List.range p.length).countP
    (fun i => decide (i % 2 = 0 ∧ p.getD i .null ≠ .null))

/-- The single-step phase correction lands in [−π, π] whenever the
uncorrected phase magnitude is at most 2π. -/
theorem constrain_range (t : Int) (h : |t| ≤ q16_2pi) :
    -q16_pi ≤ constrain t ∧ constrain t ≤ q16_pi := by
  rw [abs_le] at h
  unfold constrain q16_pi q16_2pi at *
  split
  · omega
  · split <;> omega

/-- The single-step phase correction preserves the phase modulo 2π. -/
theorem constrain_emod (t : Int) : constrain t % q16_2pi = t % q16_2pi := by
  unfold constrain q16_pi q16_2pi
  split
  · omega
  · split <;> omega

/-- C1 counterexample: the phase input −π has magnitude below 2π, yet
after `nco_crcq16_set_phase` the stored phase is −π itself — the
correction only fires for phases strictly below −π — so the claimed
strict lower bound −π < θ fails. -/
theorem c1_counterexample :
    |(-6434 : Int)| < q16_2pi ∧
    (nco_crcq16_set_phase ncoInit (-6434)).theta = -q16_pi ∧
    ¬ (-q16_pi < (nco_crcq16_set_phase ncoInit (-6434)).theta) :=
  ⟨by decide, by decide, by decide⟩

/-- C1 (amended): for every phase input of magnitude below 2π, after
`nco_crcq16_set_phase` — and likewise after `nco_crcq16_adjust_phase` or
`nco_crcq16_step` whose pre-correction phase magnitude is below 2π —
the stored phase lies in the closed interval −π ≤ θ ≤ π (the bound is
attained at −π, so the interval is closed below, not open as claimed). -/
theorem c1_phase_in_range (q : Nco) (phi dphi : Int) :
    (|phi| < q16_2pi →
      -q16_pi ≤ (nco_crcq16_set_phase q phi).theta ∧
        (nco_crcq16_set_phase q phi).theta ≤ q16_pi) ∧
    (|q.theta + dphi| < q16_2pi →
      -q16_pi ≤ (nco_crcq16_adjust_phase q dphi).theta ∧
        (nco_crcq16_adjust_phase q dphi).theta ≤ q16_pi) ∧
    (|q.theta + q.dTheta| < q16_2pi →
      -q16_pi ≤ (nco_crcq16_step q).theta ∧
        (nco_crcq16_step q).theta ≤ q16_pi) := by
  refine ⟨fun h => ?_, fun h => ?_, fun h => ?_⟩
  · simpa [nco_crcq16_set_phase] using constrain_range phi (le_of_lt h)
  · simpa [nco_crcq16_adjust_phase] using constrain_range (q.theta + dphi) (le_of_lt h)
  · simpa [nco_crcq16_step] using constrain_range (q.theta + q.dTheta) (le_of_lt h)

/-- Witness for `c1_phase_in_range` at concrete inputs. -/
theorem c1_phase_in_range_witness :
    (-q16_pi ≤ (nco_crcq16_set_phase ncoInit 7000).theta ∧
      (nco_crcq16_set_phase ncoInit 7000).theta ≤ q16_pi) ∧
    (-q16_pi ≤ (nco_crcq16_adjust_phase ncoInit (-7000)).theta ∧
      (nco_crcq16_adjust_phase ncoInit (-7000)).theta ≤ q16_pi) ∧
    (-q16_pi ≤ (nco_crcq16_step ncoInit).theta ∧
      (nco_crcq16_step ncoInit).theta ≤ q16_pi) :=
  ⟨(c1_phase_in_range ncoInit 7000 0).1 (by decide),
   (c1_phase_in_range ncoInit 7000 (-7000)).2.1 (by decide),
   (c1_phase_in_range ncoInit 7000 (-7000)).2.2 (by decide)⟩

/-- C4: `nco_crcq16_pll_set_bandwidth` fails with the fatal
precondition-violation diagnostic exactly when the bandwidth argument is
negative; for every non-negative bandwidth it returns normally, storing
the bandwidth argument unchanged (no silent clamping) and installing the
recomputed loop-filter coefficients. -/
theorem c4_set_bandwidth (q : Nco) (b : Int) :
    (b < 0 → nco_crcq16_pll_set_bandwidth q b
        = .error "nco_pll_set_bandwidth(), bandwidth must be positive") ∧
    (0 ≤ b → nco_crcq16_pll_set_bandwidth q b
        = .ok { q with bandwidth := b, filter := pll_coeffs_install q.filter b }) := by
  unfold nco_crcq16_pll_set_bandwidth
  constructor
  · intro h
    rw [if_pos h]
  · intro h
    rw [if_neg (by omega)]

/-- Witness for `c4_set_bandwidth`: rejection at −1 and success at 205. -/
theorem c4_set_bandwidth_witness :
    nco_crcq16_pll_set_bandwidth ncoInit (-1)
      = .error "nco_pll_set_bandwidth(), bandwidth must be positive" ∧
    nco_crcq16_pll_set_bandwidth ncoInit 205
      = .ok { ncoInit with bandwidth := 205, filter := pll_coeffs_install ncoInit.filter 205 } :=
  ⟨(c4_set_bandwidth ncoInit (-1)).1 (by decide),
   (c4_set_bandwidth ncoInit 205).2 (by decide)⟩

/-- C5: `nco_crcq16_pll_step` feeds the phase error through the biquad
loop filter (direct form I), adds the filtered output to the frequency —
frequency' = frequency + filter(e) — with no constraint applied to the
resulting frequency, and leaves the phase unchanged. -/
theorem c5_pll_step (q : Nco) (e : Int) :
    (nco_crcq16_pll_step q e).theta = q.theta ∧
    (nco_crcq16_pll_step q e).dTheta = q.dTheta + (sos_execute_df1 q.filter e).2 ∧
    (nco_crcq16_pll_step q e).filter = (sos_execute_df1 q.filter e).1 :=
  ⟨rfl, rfl, rfl⟩

set_option maxRecDepth 4000 in
/-- C10: for every phase value, constrained or not, the table index
computed by the NCO-mode sine/cosine routine is reduced mod 256 (the
`& 0xff` mask), so the debug assertion `index < 256` always holds and
both the sine lookup at `index` and the cosine lookup at
`(index+64) mod 256` fall inside the 256-entry sine table. -/
theorem c10_index_masked (q : Nco) :
    (nco_crcq16_compute_sincos_nco q).index < 256 ∧
    (nco_crcq16_compute_sincos_nco q).index < sintab.length ∧
    ((nco_crcq16_compute_sincos_nco q).index + 64) % 256 < sintab.length := by
  have hlen : sintab.length = 256 := by rfl
  have h : nco_index q.theta < 256 := Nat.mod_lt _ (by norm_num)
  have h2 : (nco_index q.theta + 64) % 256 < 256 := Nat.mod_lt _ (by norm_num)
  refine ⟨?_, ?_, ?_⟩ <;>
    simp only [nco_crcq16_compute_sincos_nco, hlen] <;> omega

/-- Reduction of the 32-bit wrap followed by the 0xff mask: only the low
eight bits of the truncated value survive. -/
theorem index_wrap_reduce (a : Int) :
    ((a % 4294967296).toNat) % 256 = (a % 256).toNat := by
  omega

set_option maxRecDepth 8000 in
/-- C2 counterexample: at stored phase 0 — a constrained phase, −π < 0 ≤ π
— the code computes table index 0 (the +512 bias vanishes mod 256), so
its cosine lookup hits entry (0+64) mod 256 = 64 holding +1 (raw 2048);
the claimed mapping round(phase·256/(2π)) + 128 masked into [0,255]
yields index 128 instead, whose cosine lookup (128+64) mod 256 = 192
holds −1 (raw −2048).  The claimed index formula does not describe the
code. -/
theorem c2_counterexample :
    (nco_crcq16_compute_sincos_nco ncoInit).index = 0 ∧
    spec_index_c2 ncoInit.theta = 128 ∧
    ¬ ((nco_crcq16_compute_sincos_nco ncoInit).index = spec_index_c2 ncoInit.theta) ∧
    (nco_crcq16_compute_sincos_nco ncoInit).cosine = 2048 ∧
    sget ((spec_index_c2 ncoInit.theta + 64) % 256) = -2048 := by
  have h0 : nco_index 0 = 0 := by
    unfold nco_index qtrunc idx_scale
    norm_num
    decide
  have hs : spec_index_c2 0 = 128 := by
    unfold spec_index_c2 idx_scale
    norm_num
    decide
  have hth : ncoInit.theta = 0 := rfl
  refine ⟨?_, ?_, ?_, ?_, ?_⟩
  · show nco_index ncoInit.theta = 0
    rw [hth, h0]
  · rw [hth, hs]
  · show ¬ (nco_index ncoInit.theta = spec_index_c2 ncoInit.theta)
    rw [hth, h0, hs]
    decide
  · show sget ((nco_index ncoInit.theta + 64) % 256) = 2048
    rw [hth, h0]
    decide
  · rw [hth, hs]
    decide

set_option maxRecDepth 8000 in
/-- C2 (amended): in NCO mode, for every constrained phase θ
(−π < θ ≤ π), the sine/cosine computation derives the table index as the
float truncation of θraw·40.743665 + 512.5 reduced mod 256, where θraw
is the raw q16 integer — the 512 bias vanishes mod 256, and the
radians-domain constant 256/(2π) is applied to the raw fixed-point
integer rather than to the angle it represents, so the index is not
round(phase·256/(2π)) + 128 — then looks up the sine at that index and
the cosine at (index+64) mod 256 in the same 256-entry table. -/
theorem c2_sincos_nco (q : Nco) (_h1 : -q16_pi < q.theta) (_h2 : q.theta ≤ q16_pi) :
    (nco_crcq16_compute_sincos_nco q).index
      = ((qtrunc ((q.theta : ℚ) * idx_scale + 512 + 1/2)) % 256).toNat ∧
    (nco_crcq16_compute_sincos_nco q).sine
      = sget ((nco_crcq16_compute_sincos_nco q).index) ∧
    (nco_crcq16_compute_sincos_nco q).cosine
      = sget (((nco_crcq16_compute_sincos_nco q).index + 64) % 256) := by
  refine ⟨?_, rfl, rfl⟩
  show nco_index q.theta = _
  unfold nco_index
  exact index_wrap_reduce _

set_option maxRecDepth 8000 in
/-- Witness for `c2_sincos_nco` at phase raw 1. -/
theorem c2_sincos_nco_witness :
    (nco_crcq16_compute_sincos_nco (nco_crcq16_set_phase ncoInit 1)).index
      = ((qtrunc (((nco_crcq16_set_phase ncoInit 1).theta : ℚ) * idx_scale + 512 + 1/2))
          % 256).toNat ∧
    (nco_crcq16_compute_sincos_nco (nco_crcq16_set_phase ncoInit 1)).sine
      = sget ((nco_crcq16_compute_sincos_nco (nco_crcq16_set_phase ncoInit 1)).index) ∧
    (nco_crcq16_compute_sincos_nco (nco_crcq16_set_phase ncoInit 1)).cosine
      = sget (((nco_crcq16_compute_sincos_nco (nco_crcq16_set_phase ncoInit 1)).index + 64)
          % 256) :=
  c2_sincos_nco (nco_crcq16_set_phase ncoInit 1) (by decide) (by decide)

/-- Invariant of repeated stepping from a reset oscillator: the
frequency is preserved, the phase stays congruent to n·f modulo the q16
value of 2π, and the phase stays inside [−π, π]. -/
theorem step_iterate_invariant (f : Int) (hf : |f| ≤ q16_pi) (n : Nat) :
    ((nco_crcq16_step)^[n] (nco_crcq16_set_frequency ncoInit f)).dTheta = f ∧
    ((nco_crcq16_step)^[n] (nco_crcq16_set_frequency ncoInit f)).theta % q16_2pi
      = ((n : Int) * f) % q16_2pi ∧
    -q16_pi ≤ ((nco_crcq16_step)^[n] (nco_crcq16_set_frequency ncoInit f)).theta ∧
    ((nco_crcq16_step)^[n] (nco_crcq16_set_frequency ncoInit f)).theta ≤ q16_pi := by
  induction n with
  | zero =>
    refine ⟨rfl, ?_, ?_, ?_⟩
    · show (0 : Int) % q16_2pi = ((0 : Nat) : Int) * f % q16_2pi
      simp
    · show -q16_pi ≤ (0 : Int)
      decide
    · show (0 : Int) ≤ q16_pi
      decide
  | succ n ih =>
    obtain ⟨hd, hm, hlo, hhi⟩ := ih
    rw [Function.iterate_succ_apply']
    set s := (nco_crcq16_step)^[n] (nco_crcq16_set_frequency ncoInit f) with hs
    have hth : (nco_crcq16_step s).theta = constrain (s.theta + f) := by
      rw [nco_crcq16_step, hd]
    have habs : |s.theta + f| ≤ q16_2pi := by
      rw [abs_le] at *
      unfold q16_pi q16_2pi at *
      omega
    refine ⟨?_, ?_, ?_, ?_⟩
    · exact hd
    · rw [hth, constrain_emod]
      have hcast : ((n + 1 : Nat) : Int) * f = (n : Int) * f + f := by
        push_cast
        ring
      rw [hcast]
      exact Int.ModEq.add_right f hm
    · rw [hth]
      exact (constrain_range _ habs).1
    · rw [hth]
      exact (constrain_range _ habs).2

set_option maxRecDepth 8000 in
/-- C3 counterexample: the q16 representation of 2π/256 is
round(12868/256) = 50; an NCO-mode oscillator started at phase 0 with
that frequency has phase −68, not its initial 0, after exactly 256
steps — each step adds the quantized 50 instead of exactly 2π/256, and
the accumulated deficit 256·50 − 12868 = −68 survives the wrap, so the
phase does not return to its initial value. -/
theorem c3_counterexample :
    ⌊(q16_2pi : ℚ) / 256 + 1/2⌋ = 50 ∧
    ((nco_crcq16_step)^[256] (nco_crcq16_set_frequency ncoInit 50)).theta = -68 ∧
    ¬ (((nco_crcq16_step)^[256] (nco_crcq16_set_frequency ncoInit 50)).theta
        = ncoInit.theta) := by
  obtain ⟨-, hm, hlo, hhi⟩ := step_iterate_invariant 50 (by decide) 256
  have hval : ((nco_crcq16_step)^[256] (nco_crcq16_set_frequency ncoInit 50)).theta
      = -68 := by
    have h1 : (((256 : Nat) : Int) * 50) % q16_2pi = 12800 := by decide
    rw [h1] at hm
    unfold q16_pi q16_2pi at *
    omega
  refine ⟨?_, hval, ?_⟩
  · unfold q16_2pi
    norm_num
  · rw [hval]
    decide

/-- C3 (amended): starting from phase 0, n step() calls at any frequency
f with |f| ≤ π leave the phase congruent to n·f modulo the q16 value of
2π and inside [−π, π]; the accumulation is exact in the raw integers —
the only rounding is in the fixed-point representation of f itself — so
with f = 50 (the representation of 2π/256) the phase after 256 steps is
256·50 mod 2π = −68, off from its initial value 0 by exactly the
accumulated representation error 256·(50 − 12868/256). -/
theorem c3_step_accumulation (n : Nat) (f : Int) (hf : |f| ≤ q16_pi) :
    ((nco_crcq16_step)^[n] (nco_crcq16_set_frequency ncoInit f)).theta % q16_2pi
      = ((n : Int) * f) % q16_2pi ∧
    -q16_pi ≤ ((nco_crcq16_step)^[n] (nco_crcq16_set_frequency ncoInit f)).theta ∧
    ((nco_crcq16_step)^[n] (nco_crcq16_set_frequency ncoInit f)).theta ≤ q16_pi :=
  ⟨(step_iterate_invariant f hf n).2.1,
   (step_iterate_invariant f hf n).2.2.1,
   (step_iterate_invariant f hf n).2.2.2⟩

/-- Witness for `c3_step_accumulation` at n = 3, f = 5000. -/
theorem c3_step_accumulation_witness :
    ((nco_crcq16_step)^[3] (nco_crcq16_set_frequency ncoInit 5000)).theta % q16_2pi
      = ((3 : Nat) : Int) * 5000 % q16_2pi ∧
    -q16_pi ≤ ((nco_crcq16_step)^[3] (nco_crcq16_set_frequency ncoInit 5000)).theta ∧
    ((nco_crcq16_step)^[3] (nco_crcq16_set_frequency ncoInit 5000)).theta ≤ q16_pi :=
  c3_step_accumulation 3 5000 (by decide)

/-- C6 counterexample: at bandwidth b = 205 (the q16 value nearest the
documented default 0.1), the claimed coefficient a1 = −1 + t1/2 with
t1 = K/wn² evaluates to −1661/1681 ≈ −0.988, but the value actually
installed into the biquad filter is its q16 (float-to-integer) cast, 0 —
the sign of the feed-back coefficient is even lost — so the installed
coefficients are not exactly the formula values. -/
theorem c6_counterexample :
    (pll_coeffs_install ncoInit.filter 205).a1 = 0 ∧
    (spec_pll_coeffs 205).a1 = -1661/1681 ∧
    ((pll_coeffs_install ncoInit.filter 205).a1 : ℚ) ≠ (spec_pll_coeffs 205).a1 := by
  have hq : (pll_coeffs_rat 205).a1 = -1661/1681 := by
    simp only [pll_coeffs_rat]
    norm_num
  have ht : qtrunc (-1661/1681 : ℚ) = 0 := by
    unfold qtrunc
    rw [if_pos (by norm_num)]
    norm_num
  have hin : (pll_coeffs_install ncoInit.filter 205).a1 = qtrunc ((pll_coeffs_rat 205).a1) := rfl
  have hspec : (spec_pll_coeffs 205).a1 = -1661/1681 := by
    simp only [spec_pll_coeffs]
    norm_num
  refine ⟨?_, hspec, ?_⟩
  · rw [hin, hq, ht]
  · rw [hin, hq, ht, hspec]
    norm_num

/-- C6 (amended): for every bandwidth b > 0, the coefficient values
computed by `nco_crcq16_pll_set_bandwidth` are exactly the spec formulas
b0 = 2K(1+t2/2), b1 = 4K, b2 = 2K(1−t2/2), a0 = 1+t1/2, a1 = −1+t1/2,
a2 = 0 with t1 = K/wn², t2 = 2ζ/wn − 1/K, wn = b, fixed gain K = 1000
and damping ζ the float value of 1/√2 (2ζ² agrees with 1 to within
2^−22); what is installed into the biquad filter, however, is the q16
float-to-fixed-point truncation of each of these values, not the exact
value itself. -/
theorem c6_coefficients (q : Nco) (b : Int) (_hb : 0 < b) :
    pll_coeffs_rat b = spec_pll_coeffs b ∧
    pll_coeffs_install q.filter b = sos_set_coefficients q.filter
      (qtrunc ((spec_pll_coeffs b).b0)) (qtrunc ((spec_pll_coeffs b).b1))
      (qtrunc ((spec_pll_coeffs b).b2)) (qtrunc ((spec_pll_coeffs b).a0))
      (qtrunc ((spec_pll_coeffs b).a1)) (qtrunc ((spec_pll_coeffs b).a2)) ∧
    |2 * zetaQ ^ 2 - 1| ≤ 1 / 2 ^ 22 := by
  have h1 : pll_coeffs_rat b = spec_pll_coeffs b := by
    ext
    · simp only [pll_coeffs_rat, spec_pll_coeffs]
    · simp only [pll_coeffs_rat, spec_pll_coeffs]
      ring
    · simp only [pll_coeffs_rat, spec_pll_coeffs]
    · simp only [pll_coeffs_rat, spec_pll_coeffs]
      ring
    · simp only [pll_coeffs_rat, spec_pll_coeffs]
      ring
    · simp only [pll_coeffs_rat, spec_pll_coeffs]
  refine ⟨h1, ?_, ?_⟩
  · unfold pll_coeffs_install
    rw [h1]
  · rw [abs_le]
    constructor <;> norm_num [zetaQ]

/-- Witness for `c6_coefficients` at bandwidth 205. -/
theorem c6_coefficients_witness :
    pll_coeffs_rat 205 = spec_pll_coeffs 205 ∧
    pll_coeffs_install ncoInit.filter 205 = sos_set_coefficients ncoInit.filter
      (qtrunc ((spec_pll_coeffs 205).b0)) (qtrunc ((spec_pll_coeffs 205).b1))
      (qtrunc ((spec_pll_coeffs 205).b2)) (qtrunc ((spec_pll_coeffs 205).a0))
      (qtrunc ((spec_pll_coeffs 205).a1)) (qtrunc ((spec_pll_coeffs 205).a2)) ∧
    |2 * zetaQ ^ 2 - 1| ≤ 1 / 2 ^ 22 :=
  c6_coefficients ncoInit 205 (by decide)

/-- The single-sample mixers change neither phase nor frequency, only
the cached sine/cosine/index. -/
theorem mix_up_state (q : Nco) (x : Cq16) :
    (nco_crcq16_mix_up q x).1.theta = q.theta ∧
    (nco_crcq16_mix_up q x).1.dTheta = q.dTheta ∧
    (nco_crcq16_mix_down q x).1.theta = q.theta ∧
    (nco_crcq16_mix_down q x).1.dTheta = q.dTheta :=
  ⟨rfl, rfl, rfl, rfl⟩

/-- The mixer outputs depend on the oscillator state only through the
phase. -/
theorem mix_out_congr {q q' : Nco} (h : q.theta = q'.theta) (x : Cq16) :
    (nco_crcq16_mix_up q x).2 = (nco_crcq16_mix_up q' x).2 ∧
    (nco_crcq16_mix_down q x).2 = (nco_crcq16_mix_down q' x).2 := by
  constructor <;>
    simp only [nco_crcq16_mix_up, nco_crcq16_mix_down,
      nco_crcq16_compute_sincos_nco, h]

/-- Elementwise description of the block up-mixer. -/
theorem mix_block_up_spec (xs : List Cq16) : ∀ q : Nco,
    (nco_crcq16_mix_block_up q xs).2.length = xs.length ∧
    (nco_crcq16_mix_block_up q xs).1.theta = q.theta ∧
    (nco_crcq16_mix_block_up q xs).1.dTheta = q.dTheta ∧
    ∀ i, i < xs.length →
      (nco_crcq16_mix_block_up q xs).2.getD i ⟨0, 0⟩
        = (nco_crcq16_mix_up q (xs.getD i ⟨0, 0⟩)).2 := by
  induction xs with
  | nil =>
    intro q
    exact ⟨rfl, rfl, rfl, fun i hi => absurd hi (by simp)⟩
  | cons x xs ih =>
    intro q
    obtain ⟨hlen, hth, hdth, helts⟩ := ih (nco_crcq16_mix_up q x).1
    have hcons : nco_crcq16_mix_block_up q (x :: xs)
        = ((nco_crcq16_mix_block_up (nco_crcq16_mix_up q x).1 xs).1,
           (nco_crcq16_mix_up q x).2
             :: (nco_crcq16_mix_block_up (nco_crcq16_mix_up q x).1 xs).2) := rfl
    rw [hcons]
    refine ⟨by simpa using hlen, hth, hdth, ?_⟩
    intro i hi
    match i with
    | 0 => rfl
    | Nat.succ j =>
      have hj : j < xs.length := by simpa using hi
      rw [List.getD_cons_succ, helts j hj,
        (mix_out_congr (show (nco_crcq16_mix_up q x).1.theta = q.theta from rfl)
          (xs.getD j ⟨0, 0⟩)).1]
      rfl

/-- Elementwise description of the block down-mixer. -/
theorem mix_block_down_spec (xs : List Cq16) : ∀ q : Nco,
    (nco_crcq16_mix_block_down q xs).2.length = xs.length ∧
    (nco_crcq16_mix_block_down q xs).1.theta = q.theta ∧
    (nco_crcq16_mix_block_down q xs).1.dTheta = q.dTheta ∧
    ∀ i, i < xs.length →
      (nco_crcq16_mix_block_down q xs).2.getD i ⟨0, 0⟩
        = (nco_crcq16_mix_down q (xs.getD i ⟨0, 0⟩)).2 := by
  induction xs with
  | nil =>
    intro q
    exact ⟨rfl, rfl, rfl, fun i hi => absurd hi (by simp)⟩
  | cons x xs ih =>
    intro q
    obtain ⟨hlen, hth, hdth, helts⟩ := ih (nco_crcq16_mix_down q x).1
    have hcons : nco_crcq16_mix_block_down q (x :: xs)
        = ((nco_crcq16_mix_block_down (nco_crcq16_mix_down q x).1 xs).1,
           (nco_crcq16_mix_down q x).2
             :: (nco_crcq16_mix_block_down (nco_crcq16_mix_down q x).1 xs).2) := rfl
    rw [hcons]
    refine ⟨by simpa using hlen, hth, hdth, ?_⟩
    intro i hi
    match i with
    | 0 => rfl
    | Nat.succ j =>
      have hj : j < xs.length := by simpa using hi
      rw [List.getD_cons_succ, helts j hj,
        (mix_out_congr (show (nco_crcq16_mix_down q x).1.theta = q.theta from rfl)
          (xs.getD j ⟨0, 0⟩)).2]
      rfl

/-- C7: for every oscillator state and input sequence, `mix_block_up`
(and `mix_block_down`) produces an output of the same length whose i-th
element is the single-sample `mix_up` (`mix_down`) of the i-th input
evaluated at the oscillator's current angle — the same angle for every
element, since the single-sample mixers never advance the phase — and
the phase and frequency are unchanged after the whole block. -/
theorem c7_block_mixing (q : Nco) (xs : List Cq16) :
    (nco_crcq16_mix_block_up q xs).2.length = xs.length ∧
    (nco_crcq16_mix_block_up q xs).1.theta = q.theta ∧
    (nco_crcq16_mix_block_up q xs).1.dTheta = q.dTheta ∧
    (∀ i, i < xs.length →
      (nco_crcq16_mix_block_up q xs).2.getD i ⟨0, 0⟩
        = (nco_crcq16_mix_up q (xs.getD i ⟨0, 0⟩)).2) ∧
    (nco_crcq16_mix_block_down q xs).2.length = xs.length ∧
    (nco_crcq16_mix_block_down q xs).1.theta = q.theta ∧
    (nco_crcq16_mix_block_down q xs).1.dTheta = q.dTheta ∧
    (∀ i, i < xs.length →
      (nco_crcq16_mix_block_down q xs).2.getD i ⟨0, 0⟩
        = (nco_crcq16_mix_down q (xs.getD i ⟨0, 0⟩)).2) := by
  obtain ⟨u1, u2, u3, u4⟩ := mix_block_up_spec xs q
  obtain ⟨d1, d2, d3, d4⟩ := mix_block_down_spec xs q
  exact ⟨u1, u2, u3, u4, d1, d2, d3, d4⟩

/-- Witness for `c7_block_mixing` on a two-sample block. -/
theorem c7_block_mixing_witness :
    ((nco_crcq16_mix_block_up ncoInit [⟨2048, 0⟩, ⟨0, 100⟩]).2.getD 0 ⟨0, 0⟩
        = (nco_crcq16_mix_up ncoInit (([⟨2048, 0⟩, ⟨0, 100⟩] : List Cq16).getD 0 ⟨0, 0⟩)).2) ∧
    ((nco_crcq16_mix_block_up ncoInit [⟨2048, 0⟩, ⟨0, 100⟩]).2.getD 1 ⟨0, 0⟩
        = (nco_crcq16_mix_up ncoInit (([⟨2048, 0⟩, ⟨0, 100⟩] : List Cq16).getD 1 ⟨0, 0⟩)).2) ∧
    ((nco_crcq16_mix_block_down ncoInit [⟨2048, 0⟩, ⟨0, 100⟩]).2.getD 1 ⟨0, 0⟩
        = (nco_crcq16_mix_down ncoInit (([⟨2048, 0⟩, ⟨0, 100⟩] : List Cq16).getD 1 ⟨0, 0⟩)).2) :=
  ⟨(c7_block_mixing ncoInit [⟨2048, 0⟩, ⟨0, 100⟩]).2.2.2.1 0 (by decide),
   (c7_block_mixing ncoInit [⟨2048, 0⟩, ⟨0, 100⟩]).2.2.2.1 1 (by decide),
   (c7_block_mixing ncoInit [⟨2048, 0⟩, ⟨0, 100⟩]).2.2.2.2.2.2.2 1 (by decide)⟩

set_option maxRecDepth 8000 in
/-- The single-pass table check evaluates to true. -/
theorem tabOk_true : tabOk = true := by rfl

/-- Pointwise consequences of `tabOk_true`. -/
theorem sintab_facts (i : Nat) (hi : i < 256) :
    (-2048 ≤ sget i ∧ sget i ≤ 2048) ∧
    (-2390 ≤ (sget ((i + 64) % 256))^2 + (sget i)^2 - 2048^2 ∧
     (sget ((i + 64) % 256))^2 + (sget i)^2 - 2048^2 ≤ 2390) := by
  have hall : (List.range 256).all (fun i =>
      decide (-2048 ≤ sget i) && decide (sget i ≤ 2048) &&
      decide (-2390 ≤ (sget ((i + 64) % 256))^2 + (sget i)^2 - 2048^2) &&
      decide ((sget ((i + 64) % 256))^2 + (sget i)^2 - 2048^2 ≤ 2390)) = true :=
    tabOk_true
  have h := List.all_eq_true.mp hall i (List.mem_range.mpr hi)
  simp only [Bool.and_eq_true, decide_eq_true_eq] at h
  exact ⟨⟨h.1.1.1, h.1.1.2⟩, h.1.2, h.2⟩

/-- Every sine-table entry lies in the q16 interval [−1, 1]. -/
theorem sintab_entry_bounds : ∀ i, i < 256 → -2048 ≤ sget i ∧ sget i ≤ 2048 :=
  fun i hi => (sintab_facts i hi).1

/-- Quantized Pythagorean identity of the table: for every index, the
cosine entry (a quarter period ahead) and the sine entry have squares
summing to 2048² up to the quantization deviation 2390. -/
theorem sintab_circle : ∀ i, i < 256 →
    -2390 ≤ (sget ((i + 64) % 256))^2 + (sget i)^2 - 2048^2 ∧
    (sget ((i + 64) % 256))^2 + (sget i)^2 - 2048^2 ≤ 2390 :=
  fun i hi => (sintab_facts i hi).2

/-- Four-term triangle inequality. -/
theorem abs_add4 (a b c d : Int) : |a + b + c + d| ≤ |a| + |b| + |c| + |d| := by
  calc |a + b + c + d| ≤ |a + b + c| + |d| := abs_add _ _
    _ ≤ |a + b| + |c| + |d| := by linarith [abs_add (a + b) c]
    _ ≤ |a| + |b| + |c| + |d| := by linarith [abs_add a b]

/-- Abstract fixed-point round-trip estimate: with each quotient e and
remainder r of the shifted products given symbolically, rotating by
(c, s) and back by (c, −s) returns the input up to the quantized circle
deviation plus the accumulated truncation errors. -/
theorem roundtrip_aux (c s x1 x2 eA rA eB rB eC rC eD rD eE rE eF rF eG rG eH rH : Int)
    (h1 : 2048*eA + rA = x1*c) (h2 : 2048*eB + rB = x2*s)
    (h3 : 2048*eC + rC = x1*s) (h4 : 2048*eD + rD = x2*c)
    (h5 : 2048*eE + rE = (eA - eB)*c) (h6 : 2048*eF + rF = (eC + eD)*(-s))
    (h7 : 2048*eG + rG = (eA - eB)*(-s)) (h8 : 2048*eH + rH = (eC + eD)*c)
    (hrA : 0 ≤ rA) (hrA' : rA < 2048) (hrB : 0 ≤ rB) (hrB' : rB < 2048)
    (hrC : 0 ≤ rC) (hrC' : rC < 2048) (hrD : 0 ≤ rD) (hrD' : rD < 2048)
    (hrE : 0 ≤ rE) (hrE' : rE < 2048) (hrF : 0 ≤ rF) (hrF' : rF < 2048)
    (hrG : 0 ≤ rG) (hrG' : rG < 2048) (hrH : 0 ≤ rH) (hrH' : rH < 2048)
    (hc1 : -2048 ≤ c) (hc2 : c ≤ 2048) (hs1 : -2048 ≤ s) (hs2 : s ≤ 2048)
    (hq1 : -2390 ≤ c^2 + s^2 - 2048^2) (hq2 : c^2 + s^2 - 2048^2 ≤ 2390) :
    |2048^2*((eE - eF) - x1)| ≤ 2390*|x1| + 5*2048^2 ∧
    |2048^2*((eG + eH) - x2)| ≤ 2390*|x2| + 5*2048^2 := by
  have key1 : 2048^2*((eE - eF) - x1)
      = x1*(c^2 + s^2 - 2048^2) + (rB - rA)*c + (-((rC + rD)*s)) + 2048*(rF - rE) := by
    linear_combination (2048 : ℤ)*h5 - 2048*h6 + c*h1 - c*h2 + s*h3 + s*h4
  have key2 : 2048^2*((eG + eH) - x2)
      = x2*(c^2 + s^2 - 2048^2) + (rA - rB)*s + (-((rC + rD)*c)) + (-(2048*(rG + rH))) := by
    linear_combination (2048 : ℤ)*h7 + 2048*h8 - s*h1 + s*h2 + c*h3 + c*h4
  have hb1 : |x1*(c^2 + s^2 - 2048^2)| ≤ 2390*|x1| := by
    rw [abs_mul]
    calc |x1| * |c^2 + s^2 - 2048^2| ≤ |x1| * 2390 :=
          mul_le_mul_of_nonneg_left (abs_le.mpr ⟨hq1, hq2⟩) (abs_nonneg _)
      _ = 2390 * |x1| := mul_comm _ _
  have hb1' : |x2*(c^2 + s^2 - 2048^2)| ≤ 2390*|x2| := by
    rw [abs_mul]
    calc |x2| * |c^2 + s^2 - 2048^2| ≤ |x2| * 2390 :=
          mul_le_mul_of_nonneg_left (abs_le.mpr ⟨hq1, hq2⟩) (abs_nonneg _)
      _ = 2390 * |x2| := mul_comm _ _
  have hb2 : |(rB - rA)*c| ≤ 2047*2048 := by
    rw [abs_mul]
    exact mul_le_mul (abs_le.mpr ⟨by omega, by omega⟩) (abs_le.mpr ⟨hc1, hc2⟩)
      (abs_nonneg _) (by norm_num)
  have hb2' : |(rA - rB)*s| ≤ 2047*2048 := by
    rw [abs_mul]
    exact mul_le_mul (abs_le.mpr ⟨by omega, by omega⟩) (abs_le.mpr ⟨hs1, hs2⟩)
      (abs_nonneg _) (by norm_num)
  have hb3 : |(-((rC + rD)*s))| ≤ 4094*2048 := by
    rw [abs_neg, abs_mul]
    exact mul_le_mul (abs_le.mpr ⟨by omega, by omega⟩) (abs_le.mpr ⟨hs1, hs2⟩)
      (abs_nonneg _) (by norm_num)
  have hb3' : |(-((rC + rD)*c))| ≤ 4094*2048 := by
    rw [abs_neg, abs_mul]
    exact mul_le_mul (abs_le.mpr ⟨by omega, by omega⟩) (abs_le.mpr ⟨hc1, hc2⟩)
      (abs_nonneg _) (by norm_num)
  have hb4 : |2048*(rF - rE)| ≤ 2048*2047 := by
    rw [abs_mul, abs_of_nonneg (by norm_num : (0:ℤ) ≤ 2048)]
    exact mul_le_mul_of_nonneg_left (abs_le.mpr ⟨by omega, by omega⟩) (by norm_num)
  have hb4' : |(-(2048*(rG + rH)))| ≤ 2048*4094 := by
    rw [abs_neg, abs_mul, abs_of_nonneg (by norm_num : (0:ℤ) ≤ 2048)]
    exact mul_le_mul_of_nonneg_left (abs_le.mpr ⟨by omega, by omega⟩) (by norm_num)
  constructor
  · calc |2048^2*((eE - eF) - x1)|
        = |x1*(c^2 + s^2 - 2048^2) + (rB - rA)*c + (-((rC + rD)*s)) + 2048*(rF - rE)| := by
          rw [key1]
      _ ≤ |x1*(c^2 + s^2 - 2048^2)| + |(rB - rA)*c| + |(-((rC + rD)*s))| + |2048*(rF - rE)| :=
          abs_add4 _ _ _ _
      _ ≤ 2390*|x1| + 5*2048^2 := by linarith
  · calc |2048^2*((eG + eH) - x2)|
        = |x2*(c^2 + s^2 - 2048^2) + (rA - rB)*s + (-((rC + rD)*c)) + (-(2048*(rG + rH)))| := by
          rw [key2]
      _ ≤ |x2*(c^2 + s^2 - 2048^2)| + |(rA - rB)*s| + |(-((rC + rD)*c))| + |(-(2048*(rG + rH)))| :=
          abs_add4 _ _ _ _
      _ ≤ 2390*|x2| + 5*2048^2 := by linarith

/-- Round-trip estimate for the concrete q16 mixing expressions. -/
theorem roundtrip_q16 (c s x1 x2 : Int)
    (hc1 : -2048 ≤ c) (hc2 : c ≤ 2048) (hs1 : -2048 ≤ s) (hs2 : s ≤ 2048)
    (hq1 : -2390 ≤ c^2 + s^2 - 2048^2) (hq2 : c^2 + s^2 - 2048^2 ≤ 2390) :
    |2048^2 * ((q16_mul (q16_mul x1 c - q16_mul x2 s) c
        - q16_mul (q16_mul x1 s + q16_mul x2 c) (-s)) - x1)|
      ≤ 2390*|x1| + 5*2048^2 ∧
    |2048^2 * ((q16_mul (q16_mul x1 c - q16_mul x2 s) (-s)
        + q16_mul (q16_mul x1 s + q16_mul x2 c) c) - x2)|
      ≤ 2390*|x2| + 5*2048^2 := by
  have e1 := Int.ediv_add_emod (x1*c) 2048
  have e2 := Int.ediv_add_emod (x2*s) 2048
  have e3 := Int.ediv_add_emod (x1*s) 2048
  have e4 := Int.ediv_add_emod (x2*c) 2048
  have e5 := Int.ediv_add_emod ((x1*c/2048 - x2*s/2048)*c) 2048
  have e6 := Int.ediv_add_emod ((x1*s/2048 + x2*c/2048)*(-s)) 2048
  have e7 := Int.ediv_add_emod ((x1*c/2048 - x2*s/2048)*(-s)) 2048
  have e8 := Int.ediv_add_emod ((x1*s/2048 + x2*c/2048)*c) 2048
  have n1 := Int.emod_nonneg (x1*c) (by norm_num : (2048:ℤ) ≠ 0)
  have m1 := Int.emod_lt_of_pos (x1*c) (by norm_num : (0:ℤ) < 2048)
  have n2 := Int.emod_nonneg (x2*s) (by norm_num : (2048:ℤ) ≠ 0)
  have m2 := Int.emod_lt_of_pos (x2*s) (by norm_num : (0:ℤ) < 2048)
  have n3 := Int.emod_nonneg (x1*s) (by norm_num : (2048:ℤ) ≠ 0)
  have m3 := Int.emod_lt_of_pos (x1*s) (by norm_num : (0:ℤ) < 2048)
  have n4 := Int.emod_nonneg (x2*c) (by norm_num : (2048:ℤ) ≠ 0)
  have m4 := Int.emod_lt_of_pos (x2*c) (by norm_num : (0:ℤ) < 2048)
  have n5 := Int.emod_nonneg ((x1*c/2048 - x2*s/2048)*c) (by norm_num : (2048:ℤ) ≠ 0)
  have m5 := Int.emod_lt_of_pos ((x1*c/2048 - x2*s/2048)*c) (by norm_num : (0:ℤ) < 2048)
  have n6 := Int.emod_nonneg ((x1*s/2048 + x2*c/2048)*(-s)) (by norm_num : (2048:ℤ) ≠ 0)
  have m6 := Int.emod_lt_of_pos ((x1*s/2048 + x2*c/2048)*(-s)) (by norm_num : (0:ℤ) < 2048)
  have n7 := Int.emod_nonneg ((x1*c/2048 - x2*s/2048)*(-s)) (by norm_num : (2048:ℤ) ≠ 0)
  have m7 := Int.emod_lt_of_pos ((x1*c/2048 - x2*s/2048)*(-s)) (by norm_num : (0:ℤ) < 2048)
  have n8 := Int.emod_nonneg ((x1*s/2048 + x2*c/2048)*c) (by norm_num : (2048:ℤ) ≠ 0)
  have m8 := Int.emod_lt_of_pos ((x1*s/2048 + x2*c/2048)*c) (by norm_num : (0:ℤ) < 2048)
  exact roundtrip_aux c s x1 x2
    (x1*c/2048) ((x1*c)%2048) (x2*s/2048) ((x2*s)%2048)
    (x1*s/2048) ((x1*s)%2048) (x2*c/2048) ((x2*c)%2048)
    ((x1*c/2048 - x2*s/2048)*c/2048) (((x1*c/2048 - x2*s/2048)*c)%2048)
    ((x1*s/2048 + x2*c/2048)*(-s)/2048) (((x1*s/2048 + x2*c/2048)*(-s))%2048)
    ((x1*c/2048 - x2*s/2048)*(-s)/2048) (((x1*c/2048 - x2*s/2048)*(-s))%2048)
    ((x1*s/2048 + x2*c/2048)*c/2048) (((x1*s/2048 + x2*c/2048)*c)%2048)
    e1 e2 e3 e4 e5 e6 e7 e8
    n1 m1 n2 m2 n3 m3 n4 m4 n5 m5 n6 m6 n7 m7 n8 m8
    hc1 hc2 hs1 hs2 hq1 hq2

/-- C8: `nco_crcq16_mix_up` returns the input multiplied by the rotation
cos θ + j·sin θ without advancing the phase, and applying
`nco_crcq16_mix_down` to that result with the same oscillator state (no
intervening step) returns the original sample within fixed-point
rounding tolerance: each component of the round trip differs from the
input component by at most (2390·|input| + 5·2048²)/2048², i.e. about
|input|/1755 plus five q16 units. -/
theorem c8_mix_roundtrip (q : Nco) (x : Cq16) :
    (nco_crcq16_mix_up q x).2
      = cq16_mul x { re := (nco_crcq16_compute_sincos_nco q).cosine,
                     im := (nco_crcq16_compute_sincos_nco q).sine } ∧
    (nco_crcq16_mix_up q x).1.theta = q.theta ∧
    |2048^2 * (((nco_crcq16_mix_down (nco_crcq16_mix_up q x).1
        (nco_crcq16_mix_up q x).2).2).re - x.re)|
      ≤ 2390*|x.re| + 5*2048^2 ∧
    |2048^2 * (((nco_crcq16_mix_down (nco_crcq16_mix_up q x).1
        (nco_crcq16_mix_up q x).2).2).im - x.im)|
      ≤ 2390*|x.im| + 5*2048^2 := by
  have hidx : nco_index q.theta < 256 := Nat.mod_lt _ (by norm_num)
  have hsb := sintab_entry_bounds (nco_index q.theta) hidx
  have hcb := sintab_entry_bounds ((nco_index q.theta + 64) % 256) (Nat.mod_lt _ (by norm_num))
  have hcirc := sintab_circle (nco_index q.theta) hidx
  have h := roundtrip_q16 (sget ((nco_index q.theta + 64) % 256)) (sget (nco_index q.theta))
      x.re x.im hcb.1 hcb.2 hsb.1 hsb.2 hcirc.1 hcirc.2
  exact ⟨rfl, rfl, h.1, h.2⟩

/-- Counting over `List.range (n+1)` splits into the head index 0 and
the shifted tail. -/
theorem countP_range_succ (n : Nat) (P : Nat → Bool) :
    (List.range (n+1)).countP P
      = (if P 0 then 1 else 0) + (List.range n).countP (fun j => P (j+1)) := by
  rw [List.range_succ_eq_map, List.countP_cons, List.countP_map]
  have hfun : List.countP (P ∘ Nat.succ) (List.range n)
      = List.countP (fun j => P (j+1)) (List.range n) := rfl
  omega

/-- Structural description of the `ofdmframe_init_S0` loop: output
length, enabled count, and the positions of the nonzero (activated)
frequency-domain values. -/
theorem S0_loop_spec (p : List SCType) (bits : Nat → Bool) : ∀ i0 : Nat,
    (ofdm_S0_loop p bits i0).1.length = p.length ∧
    (ofdm_S0_loop p bits i0).2
      = (List.range p.length).countP
          (fun j => decide ((i0 + j) % 2 = 0 ∧ p.getD j .null ≠ .null)) ∧
    ∀ j, j < p.length →
      (((ofdm_S0_loop p bits i0).1.getD j 0 ≠ 0)
        ↔ ((i0 + j) % 2 = 0 ∧ p.getD j .null ≠ .null)) := by
  induction p with
  | nil =>
    intro i0
    exact ⟨rfl, rfl, fun j hj => absurd hj (by simp)⟩
  | cons t p ih =>
    intro i0
    obtain ⟨hlen, hcnt, helts⟩ := ih (i0 + 1)
    have hshift : (List.range p.length).countP
          (fun j => decide ((i0 + (j+1)) % 2 = 0 ∧ (t :: p).getD (j+1) .null ≠ .null))
        = (ofdm_S0_loop p bits (i0 + 1)).2 := by
      rw [hcnt]
      congr 1
      funext j
      have harith : i0 + (j + 1) = i0 + 1 + j := by omega
      rw [harith]
      rfl
    have hsplit := countP_range_succ p.length
      (fun j => decide ((i0 + j) % 2 = 0 ∧ (t :: p).getD j .null ≠ .null))
    cases t with
    | null =>
      refine ⟨?_, ?_, ?_⟩
      · show ((ofdm_S0_loop p bits (i0+1)).1.length) + 1 = p.length + 1
        rw [hlen]
      · show (ofdm_S0_loop p bits (i0+1)).2 + 0 = _
        rw [List.length_cons, hsplit, hshift]
        simp
      · intro j hj
        match j with
        | 0 =>
          show ((0 : Int) ≠ 0) ↔ _
          simp
        | Nat.succ k =>
          have hk : k < p.length := by simpa using hj
          show ((ofdm_S0_loop p bits (i0+1)).1.getD k 0 ≠ 0) ↔ _
          rw [helts k hk]
          have harith : i0 + 1 + k = i0 + (k + 1) := by omega
          rw [harith]
          rfl
    | pilot =>
      refine ⟨?_, ?_, ?_⟩
      · show ((ofdm_S0_loop p bits (i0+1)).1.length) + 1 = p.length + 1
        rw [hlen]
      · show (ofdm_S0_loop p bits (i0+1)).2 + (if i0 % 2 = 0 then 1 else 0) = _
        rw [List.length_cons, hsplit, hshift]
        by_cases hp : i0 % 2 = 0 <;> simp [hp] <;> omega
      · intro j hj
        match j with
        | 0 =>
          show ((if i0 % 2 = 0 then (if bits i0 then (1 : Int) else -1) else 0) ≠ 0) ↔ _
          by_cases hp : i0 % 2 = 0 <;> cases hb : bits i0 <;> simp [hp, hb]
        | Nat.succ k =>
          have hk : k < p.length := by simpa using hj
          show ((ofdm_S0_loop p bits (i0+1)).1.getD k 0 ≠ 0) ↔ _
          rw [helts k hk]
          have harith : i0 + 1 + k = i0 + (k + 1) := by omega
          rw [harith]
          rfl
    | data =>
      refine ⟨?_, ?_, ?_⟩
      · show ((ofdm_S0_loop p bits (i0+1)).1.length) + 1 = p.length + 1
        rw [hlen]
      · show (ofdm_S0_loop p bits (i0+1)).2 + (if i0 % 2 = 0 then 1 else 0) = _
        rw [List.length_cons, hsplit, hshift]
        by_cases hp : i0 % 2 = 0 <;> simp [hp] <;> omega
      · intro j hj
        match j with
        | 0 =>
          show ((if i0 % 2 = 0 then (if bits i0 then (1 : Int) else -1) else 0) ≠ 0) ↔ _
          by_cases hp : i0 % 2 = 0 <;> cases hb : bits i0 <;> simp [hp, hb]
        | Nat.succ k =>
          have hk : k < p.length := by simpa using hj
          show ((ofdm_S0_loop p bits (i0+1)).1.getD k 0 ≠ 0) ↔ _
          rw [helts k hk]
          have harith : i0 + 1 + k = i0 + (k + 1) := by omega
          rw [harith]
          rfl

set_option maxRecDepth 8000 in
/-- C9: the short-sequence generator activates exactly the even-indexed
non-null subcarriers (output entry nonzero at exactly those positions)
and returns that count; on an all-DATA allocation of M = 64 the count is
32 (half of the 64 non-null subcarriers); when no subcarrier becomes
active — e.g. an entirely NULL allocation — it fails fatally with the
diagnostic and returns no partial result. -/
theorem c9_short_sequence (p : List SCType) (bits : Nat → Bool) :
    ((ofdmframe_init_S0 p bits
        = .error "ofdmframe_init_S0(), no subcarriers enabled; check allocation")
      ↔ activeCountS0 p = 0) ∧
    (∀ S0 cnt, ofdmframe_init_S0 p bits = .ok (S0, cnt) →
      cnt = activeCountS0 p ∧ S0.length = p.length ∧
      ∀ j, j < p.length →
        ((S0.getD j 0 ≠ 0) ↔ (j % 2 = 0 ∧ p.getD j .null ≠ .null))) ∧
    ((∀ x ∈ p, x = .null) → ofdmframe_init_S0 p bits
        = .error "ofdmframe_init_S0(), no subcarriers enabled; check allocation") ∧
    activeCountS0 (List.replicate 64 SCType.data) = 32 ∧
    (∀ S0 cnt, ofdmframe_init_S0 (List.replicate 64 SCType.data) bits = .ok (S0, cnt)
      → cnt = 32) := by
  have hcountFor : ∀ pp : List SCType,
      (ofdm_S0_loop pp bits 0).2 = activeCountS0 pp := by
    intro pp
    unfold activeCountS0
    rw [(S0_loop_spec pp bits 0).2.1]
    congr 1
    funext j
    rw [Nat.zero_add]
  have hrep : activeCountS0 (List.replicate 64 SCType.data) = 32 := by
    decide
  refine ⟨?_, ?_, ?_, hrep, ?_⟩
  · by_cases hz : (ofdm_S0_loop p bits 0).2 = 0
    · constructor
      · intro _
        rw [← hcountFor p]
        exact hz
      · intro _
        unfold ofdmframe_init_S0
        rw [if_pos hz]
    · unfold ofdmframe_init_S0
      rw [if_neg hz]
      constructor
      · intro h
        exact absurd h (by simp)
      · intro h
        exact absurd ((hcountFor p).trans h) hz
  · intro S0 cnt h
    unfold ofdmframe_init_S0 at h
    by_cases hz : (ofdm_S0_loop p bits 0).2 = 0
    · rw [if_pos hz] at h
      exact absurd h (by simp)
    · rw [if_neg hz] at h
      injection h with h'
      have hS0 : (ofdm_S0_loop p bits 0).1 = S0 := congrArg Prod.fst h'
      have hcnt' : (ofdm_S0_loop p bits 0).2 = cnt := congrArg Prod.snd h'
      refine ⟨?_, ?_, ?_⟩
      · rw [← hcnt', hcountFor p]
      · rw [← hS0]
        exact (S0_loop_spec p bits 0).1
      · intro j hj
        rw [← hS0]
        rw [(S0_loop_spec p bits 0).2.2 j hj, Nat.zero_add]
  · intro hall
    have hz : activeCountS0 p = 0 := by
      unfold activeCountS0
      apply List.countP_eq_zero.mpr
      intro a ha
      have halt : a < p.length := List.mem_range.mp ha
      simp only [decide_eq_true_eq]
      rintro ⟨-, hne⟩
      exact hne (by
        rw [List.getD_eq_getElem p SCType.null halt]
        exact hall _ (List.getElem_mem halt))
    unfold ofdmframe_init_S0
    rw [if_pos (by rw [hcountFor p]; exact hz)]
  · intro S0 cnt h
    unfold ofdmframe_init_S0 at h
    have hz : ¬ ((ofdm_S0_loop (List.replicate 64 SCType.data) bits 0).2 = 0) := by
      rw [hcountFor (List.replicate 64 SCType.data), hrep]
      norm_num
    rw [if_neg hz] at h
    injection h with h'
    have hcnt' : (ofdm_S0_loop (List.replicate 64 SCType.data) bits 0).2 = cnt :=
      congrArg Prod.snd h'
    rw [← hcnt', hcountFor (List.replicate 64 SCType.data), hrep]

/-- Witness for `c9_short_sequence`: a successful run on a single-DATA
allocation returns the active count, an all-NULL allocation fails
fatally, and the all-DATA M = 64 allocation has 32 active subcarriers. -/
theorem c9_short_sequence_witness :
    ((1 : Nat) = activeCountS0 [SCType.data]) ∧
    (ofdmframe_init_S0 [SCType.null, SCType.null] (fun _ => true)
        = .error "ofdmframe_init_S0(), no subcarriers enabled; check allocation") ∧
    activeCountS0 (List.replicate 64 SCType.data) = 32 :=
  ⟨((c9_short_sequence [SCType.data] (fun _ => true)).2.1 [1] 1 (by rfl)).1,
   (c9_short_sequence [SCType.null, SCType.null] (fun _ => true)).2.2.1 (by decide),
   (c9_short_sequence [SCType.data] (fun _ => true)).2.2.2.1⟩
